import Mathlib

/-!
Verification of `mlpack::kernel::ExponentialKernel`
(src/mlpack/core/kernels/exponential_kernel.hpp).

The C++ class stores two `double` fields, `bandwidth` and `gamma`, and
offers two `const` evaluation methods plus two read-only accessors.  We
embed it shallowly over the real numbers: vectors are `List ℝ`, doubles
are `ℝ`, and `pow(bandwidth, -2.0)` is the integer power `bandwidth ^ (-2 : ℤ)`.
-/

noncomputable section

namespace mlpack

namespace metric

/-- `metric::SquaredEuclideanDistance::Evaluate(a, b)`: the sum of squared
per-coordinate differences (`accu(square(a - b))`), with no square root. -/
def SquaredEuclideanDistance (a b : List ℝ) : ℝ :=
  (List.zipWith (fun x y => (x - y) ^ 2) a b).sum

end metric

namespace kernel

/-- The state of an `ExponentialKernel` instance: the two `double` fields. -/
structure ExponentialKernel where
  bandwidth : ℝ
  gamma : ℝ

/-- Default constructor `ExponentialKernel()`: `bandwidth(1.0), gamma(-0.5)`. -/
def ExponentialKernel.default : ExponentialKernel :=
  { bandwidth := 1.0, gamma := -0.5 }

/-- Constructor `ExponentialKernel(double bandwidth)`:
`bandwidth(bandwidth), gamma(-0.5 * pow(bandwidth, -2.0))`. -/
def ExponentialKernel.ofBandwidth (bandwidth : ℝ) : ExponentialKernel :=
  { bandwidth := bandwidth, gamma := -0.5 * bandwidth ^ (-2 : ℤ) }

/-- `double Evaluate(const VecType& a, const VecType& b) const`:
`exp(gamma * sqrt(metric::SquaredEuclideanDistance::Evaluate(a, b)))`. -/
def ExponentialKernel.Evaluate (k : ExponentialKernel) (a b : List ℝ) : ℝ :=
  Real.exp (k.gamma * Real.sqrt (metric.SquaredEuclideanDistance a b))

/-- `double Evaluate(double t) const`: `exp(gamma * t)`. -/
def ExponentialKernel.EvaluateScalar (k : ExponentialKernel) (t : ℝ) : ℝ :=
  Real.exp (k.gamma * t)

/-- Accessor `const double& Bandwidth() const { return bandwidth; }`. -/
def ExponentialKernel.Bandwidth (k : ExponentialKernel) : ℝ :=
  k.bandwidth

/-- Accessor `const double& Gamma() const { return gamma; }`. -/
def ExponentialKernel.Gamma (k : ExponentialKernel) : ℝ :=
  k.gamma

/-- The four member functions callable on a constructed kernel, for stating
frame properties: both `Evaluate` overloads and both accessors. -/
inductive KernelOp where
  | evalVec (a b : List ℝ)
  | evalScalar (t : ℝ)
  | getBandwidth
  | getGamma

/-- Running one member function on a kernel instance: the returned `double`
together with the instance afterwards.  All four methods are `const` and
contain no assignment, so the instance is passed through unchanged. -/
def KernelOp.run (k : ExponentialKernel) : KernelOp → ℝ × ExponentialKernel
  | KernelOp.evalVec a b => (k.Evaluate a b, k)
  | KernelOp.evalScalar t => (k.EvaluateScalar t, k)
  | KernelOp.getBandwidth => (k.Bandwidth, k)
  | KernelOp.getGamma => (k.Gamma, k)

/-- The kernel instance left after running a sequence of member functions. -/
def runOps (k : ExponentialKernel) (ops : List KernelOp) : ExponentialKernel :=
  ops.foldl (fun s op => (KernelOp.run s op).2) k

end kernel

end mlpack

namespace mlpack

open kernel metric

/-- The constructor's `-0.5 * pow(bandwidth, -2.0)` equals `-1 / (2·μ²)`;
in Lean both sides are `0` at `μ = 0` (division by zero is zero). -/
lemma gamma_ofBandwidth (μ : ℝ) :
    (ExponentialKernel.ofBandwidth μ).gamma = -1 / (2 * μ ^ 2) := by
  rcases eq_or_ne μ 0 with hμ | hμ
  · subst hμ
    simp [ExponentialKernel.ofBandwidth, zero_zpow]
  · have h2 : μ ^ (-2 : ℤ) = (μ ^ 2)⁻¹ := by
      rw [zpow_neg, zpow_two, sq]
    rw [ExponentialKernel.ofBandwidth, h2]
    have hsq : μ ^ 2 ≠ 0 := pow_ne_zero 2 hμ
    field_simp
    ring

/-- For a nonzero bandwidth the stored `gamma` is strictly negative. -/
lemma gamma_neg_of_ne_zero {μ : ℝ} (hμ : μ ≠ 0) :
    (ExponentialKernel.ofBandwidth μ).gamma < 0 := by
  have hsq : 0 < μ ^ 2 := lt_of_le_of_ne (sq_nonneg μ) (Ne.symm (pow_ne_zero 2 hμ))
  rw [gamma_ofBandwidth]
  exact div_neg_of_neg_of_pos (by norm_num) (by linarith)

/-- The squared Euclidean distance is a sum of squares, hence nonnegative. -/
lemma sqDist_nonneg (a b : List ℝ) : 0 ≤ SquaredEuclideanDistance a b := by
  induction a generalizing b with
  | nil => simp [SquaredEuclideanDistance]
  | cons x xs ih =>
    cases b with
    | nil => simp [SquaredEuclideanDistance]
    | cons y ys =>
      have hx : (0 : ℝ) ≤ (x - y) ^ 2 := sq_nonneg _
      have hrest := ih ys
      simp only [SquaredEuclideanDistance, List.zipWith_cons_cons, List.sum_cons] at *
      linarith

/-- The squared Euclidean distance of a vector to itself is zero. -/
lemma sqDist_self (a : List ℝ) : SquaredEuclideanDistance a a = 0 := by
  induction a with
  | nil => simp [SquaredEuclideanDistance]
  | cons x xs ih =>
    simp only [SquaredEuclideanDistance, List.zipWith_cons_cons, List.sum_cons] at *
    rw [ih]
    ring

/-- The squared Euclidean distance is symmetric in its two arguments. -/
lemma sqDist_comm (a b : List ℝ) :
    SquaredEuclideanDistance a b = SquaredEuclideanDistance b a := by
  induction a generalizing b with
  | nil => cases b <;> simp [SquaredEuclideanDistance]
  | cons x xs ih =>
    cases b with
    | nil => simp [SquaredEuclideanDistance]
    | cons y ys =>
      simp only [SquaredEuclideanDistance, List.zipWith_cons_cons, List.sum_cons] at *
      rw [ih ys]
      ring

/-- Each member function is `const`: running it leaves the instance unchanged. -/
lemma KernelOp.run_snd (k : ExponentialKernel) (op : KernelOp) :
    (KernelOp.run k op).2 = k := by
  cases op <;> rfl

/-- Running any sequence of member functions leaves the instance unchanged. -/
lemma runOps_eq (k : ExponentialKernel) (ops : List KernelOp) :
    runOps k ops = k := by
  induction ops with
  | nil => rfl
  | cons op ops ih =>
    show runOps (KernelOp.run k op).2 ops = k
    rw [KernelOp.run_snd]
    exact ih

/-- Claim C1: for every kernel instance, `Evaluate(a, b)` returns
`exp(gamma · sqrt(SquaredEuclideanDistance(a, b)))` — exp of gamma times the
non-squared Euclidean distance — and `Evaluate(t)` returns `exp(gamma · t)`,
where `gamma` is the instance's stored constant. -/
theorem evaluate_matches_formula (k : ExponentialKernel) (a b : List ℝ) (t : ℝ) :
    k.Evaluate a b = Real.exp (k.Gamma * Real.sqrt (SquaredEuclideanDistance a b)) ∧
    k.EvaluateScalar t = Real.exp (k.Gamma * t) :=
  ⟨rfl, rfl⟩

/-- Claim C2: the default constructor gives `Bandwidth() = 1.0` and
`Gamma() = -0.5`; construction with bandwidth `μ` gives `Gamma() = -1/(2μ²)`;
and after every construction `Gamma() = -1/(2·Bandwidth()²)`. -/
theorem gamma_bandwidth_relation :
    ExponentialKernel.default.Bandwidth = 1.0 ∧
    ExponentialKernel.default.Gamma = -0.5 ∧
    (∀ μ : ℝ, (ExponentialKernel.ofBandwidth μ).Gamma = -1 / (2 * μ ^ 2)) ∧
    (∀ μ : ℝ, (ExponentialKernel.ofBandwidth μ).Gamma =
      -1 / (2 * (ExponentialKernel.ofBandwidth μ).Bandwidth ^ 2)) ∧
    ExponentialKernel.default.Gamma =
      -1 / (2 * ExponentialKernel.default.Bandwidth ^ 2) := by
  refine ⟨rfl, rfl, ?_, ?_, ?_⟩
  · intro μ
    exact gamma_ofBandwidth μ
  · intro μ
    exact gamma_ofBandwidth μ
  · show (-0.5 : ℝ) = -1 / (2 * (1.0 : ℝ) ^ 2)
    norm_num

/-- Claim C3: for bandwidth `μ > 0` and any vectors, the result of
`Evaluate(a, b)` lies in `(0, 1]`. -/
theorem evaluate_in_unit_interval (μ : ℝ) (hμ : 0 < μ) (a b : List ℝ) :
    0 < (ExponentialKernel.ofBandwidth μ).Evaluate a b ∧
    (ExponentialKernel.ofBandwidth μ).Evaluate a b ≤ 1 := by
  have hγ : (ExponentialKernel.ofBandwidth μ).gamma < 0 :=
    gamma_neg_of_ne_zero (ne_of_gt hμ)
  have hd : 0 ≤ Real.sqrt (SquaredEuclideanDistance a b) := Real.sqrt_nonneg _
  constructor
  · exact Real.exp_pos _
  · have hmul : (ExponentialKernel.ofBandwidth μ).gamma *
        Real.sqrt (SquaredEuclideanDistance a b) ≤ 0 :=
      mul_nonpos_of_nonpos_of_nonneg (le_of_lt hγ) hd
    calc (ExponentialKernel.ofBandwidth μ).Evaluate a b
        ≤ Real.exp 0 := Real.exp_le_exp.mpr hmul
      _ = 1 := Real.exp_zero

/-- Claim C3 witness: bandwidth 1 and vectors `[0]`, `[2]`. -/
theorem evaluate_in_unit_interval_witness :
    (0 : ℝ) < 1 ∧
    (0 < (ExponentialKernel.ofBandwidth 1).Evaluate [0] [2] ∧
      (ExponentialKernel.ofBandwidth 1).Evaluate [0] [2] ≤ 1) :=
  ⟨by norm_num, evaluate_in_unit_interval 1 (by norm_num) [0] [2]⟩

/-- Claim C4: the two-vector overload agrees with the scalar overload applied
to the computed distance `sqrt(SquaredEuclideanDistance(a, b))`. -/
theorem overloads_consistent (k : ExponentialKernel) (a b : List ℝ) :
    k.Evaluate a b =
      k.EvaluateScalar (Real.sqrt (SquaredEuclideanDistance a b)) :=
  rfl

/-- Claim C5: for bandwidth `μ > 0` and identical vectors, `Evaluate(a, a) = 1`;
and for any bandwidth, the scalar overload at `t = 0` returns exactly 1. -/
theorem evaluate_identical_eq_one (μ μ' : ℝ) (_hμ : 0 < μ) (a : List ℝ) :
    (ExponentialKernel.ofBandwidth μ).Evaluate a a = 1 ∧
    (ExponentialKernel.ofBandwidth μ').EvaluateScalar 0 = 1 := by
  constructor
  · unfold ExponentialKernel.Evaluate
    rw [sqDist_self, Real.sqrt_zero, mul_zero, Real.exp_zero]
  · unfold ExponentialKernel.EvaluateScalar
    rw [mul_zero, Real.exp_zero]

/-- Claim C5 witness: bandwidths 1 and 2, vector `[3, 4]`. -/
theorem evaluate_identical_eq_one_witness :
    (0 : ℝ) < 1 ∧
    ((ExponentialKernel.ofBandwidth 1).Evaluate [3, 4] [3, 4] = 1 ∧
      (ExponentialKernel.ofBandwidth 2).EvaluateScalar 0 = 1) :=
  ⟨by norm_num, evaluate_identical_eq_one 1 2 (by norm_num) [3, 4]⟩

/-- Claim C6: for bandwidth `μ > 0`, `Evaluate` is strictly decreasing in the
distance: a pair at strictly larger Euclidean distance evaluates strictly
smaller, and the scalar overload is strictly decreasing in `t`. -/
theorem evaluate_strictly_decreasing (μ : ℝ) (hμ : 0 < μ) (a b c d : List ℝ)
    (hvec : Real.sqrt (SquaredEuclideanDistance a b) <
      Real.sqrt (SquaredEuclideanDistance c d))
    (t₁ t₂ : ℝ) (ht : t₁ < t₂) :
    (ExponentialKernel.ofBandwidth μ).Evaluate c d <
      (ExponentialKernel.ofBandwidth μ).Evaluate a b ∧
    (ExponentialKernel.ofBandwidth μ).EvaluateScalar t₂ <
      (ExponentialKernel.ofBandwidth μ).EvaluateScalar t₁ := by
  have hγ : (ExponentialKernel.ofBandwidth μ).gamma < 0 :=
    gamma_neg_of_ne_zero (ne_of_gt hμ)
  constructor
  · exact Real.exp_lt_exp.mpr (mul_lt_mul_of_neg_left hvec hγ)
  · exact Real.exp_lt_exp.mpr (mul_lt_mul_of_neg_left ht hγ)

/-- Claim C6 witness: bandwidth 1, the identical pair `[0], [0]` against the
pair `[0], [2]` at distance 2, and scalars 0 < 1. -/
theorem evaluate_strictly_decreasing_witness :
    (0 : ℝ) < 1 ∧
    Real.sqrt (SquaredEuclideanDistance [0] [0]) <
      Real.sqrt (SquaredEuclideanDistance [0] [2]) ∧
    (0 : ℝ) < 1 ∧
    ((ExponentialKernel.ofBandwidth 1).Evaluate [0] [2] <
        (ExponentialKernel.ofBandwidth 1).Evaluate [0] [0] ∧
      (ExponentialKernel.ofBandwidth 1).EvaluateScalar 1 <
        (ExponentialKernel.ofBandwidth 1).EvaluateScalar 0) := by
  have h0 : SquaredEuclideanDistance [0] [0] = 0 := sqDist_self [0]
  have h4 : SquaredEuclideanDistance [0] [2] = 4 := by
    norm_num [SquaredEuclideanDistance]
  have hvec : Real.sqrt (SquaredEuclideanDistance [0] [0]) <
      Real.sqrt (SquaredEuclideanDistance [0] [2]) := by
    rw [h0, h4, Real.sqrt_zero]
    exact Real.sqrt_pos.mpr (by norm_num)
  exact ⟨by norm_num, hvec, by norm_num,
    evaluate_strictly_decreasing 1 (by norm_num) [0] [0] [0] [2] hvec 0 1 (by norm_num)⟩

/-- Claim C7: for equal-length vectors, `Evaluate(a, b) = Evaluate(b, a)`. -/
theorem evaluate_symmetric (k : ExponentialKernel) (a b : List ℝ)
    (_h : a.length = b.length) :
    k.Evaluate a b = k.Evaluate b a := by
  unfold ExponentialKernel.Evaluate
  rw [sqDist_comm]

/-- Claim C7 witness: the kernel with bandwidth 1 on `[1, 2]` and `[3, 4]`. -/
theorem evaluate_symmetric_witness :
    [(1 : ℝ), 2].length = [(3 : ℝ), 4].length ∧
    (ExponentialKernel.ofBandwidth 1).Evaluate [1, 2] [3, 4] =
      (ExponentialKernel.ofBandwidth 1).Evaluate [3, 4] [1, 2] :=
  ⟨rfl, evaluate_symmetric (ExponentialKernel.ofBandwidth 1) [1, 2] [3, 4] rfl⟩

/-- Claim C8 counterexample: with bandwidth −1 (a negative bandwidth), the
stored gamma is the ordinary finite negative value −1/2, and `Evaluate(2)`
returns `exp(−1)`, a value strictly between 0 and 1 — not 0, infinity, or
NaN as the claim asserts for every zero-or-negative bandwidth. -/
theorem degenerate_bandwidth_counterexample :
    (ExponentialKernel.ofBandwidth (-1)).Gamma = -(1 / 2) ∧
    (ExponentialKernel.ofBandwidth (-1)).EvaluateScalar 2 ≠ 0 ∧
    0 < (ExponentialKernel.ofBandwidth (-1)).EvaluateScalar 2 ∧
    (ExponentialKernel.ofBandwidth (-1)).EvaluateScalar 2 < 1 := by
  have hγ : (ExponentialKernel.ofBandwidth (-1 : ℝ)).Gamma = -(1 / 2) := by
    show (ExponentialKernel.ofBandwidth (-1 : ℝ)).gamma = -(1 / 2)
    rw [gamma_ofBandwidth]
    norm_num
  have hval : (ExponentialKernel.ofBandwidth (-1 : ℝ)).EvaluateScalar 2 =
      Real.exp (-1) := by
    unfold ExponentialKernel.EvaluateScalar
    rw [show (ExponentialKernel.ofBandwidth (-1 : ℝ)).gamma = -(1 / 2) from hγ]
    norm_num
  refine ⟨hγ, ?_, ?_, ?_⟩
  · rw [hval]
    exact ne_of_gt (Real.exp_pos _)
  · rw [hval]
    exact Real.exp_pos _
  · rw [hval]
    calc Real.exp (-1) < Real.exp 0 := Real.exp_lt_exp.mpr (by norm_num)
      _ = 1 := Real.exp_zero

/-- Claim C8 amended: construction with a zero or negative bandwidth performs
no validation and raises no error, but a finite negative bandwidth yields the
finite negative gamma `−1/(2·bandwidth²)` — the same gamma as the positive
bandwidth of equal magnitude — so subsequent `Evaluate` calls on nonnegative
distances return ordinary values in `(0, 1]`, not 0, infinity, or NaN (only
a bandwidth of exactly zero is degenerate). -/
theorem negative_bandwidth_is_ordinary (b t : ℝ) (hb : b < 0) (ht : 0 ≤ t) :
    (ExponentialKernel.ofBandwidth b).Gamma = -1 / (2 * b ^ 2) ∧
    (ExponentialKernel.ofBandwidth b).Gamma < 0 ∧
    (ExponentialKernel.ofBandwidth b).Gamma =
      (ExponentialKernel.ofBandwidth (-b)).Gamma ∧
    0 < (ExponentialKernel.ofBandwidth b).EvaluateScalar t ∧
    (ExponentialKernel.ofBandwidth b).EvaluateScalar t ≤ 1 := by
  have hb0 : b ≠ 0 := ne_of_lt hb
  have hγ : (ExponentialKernel.ofBandwidth b).gamma < 0 := gamma_neg_of_ne_zero hb0
  refine ⟨gamma_ofBandwidth b, hγ, ?_, ?_, ?_⟩
  · show (ExponentialKernel.ofBandwidth b).gamma =
      (ExponentialKernel.ofBandwidth (-b)).gamma
    rw [gamma_ofBandwidth, gamma_ofBandwidth, neg_sq]
  · exact Real.exp_pos _
  · have hmul : (ExponentialKernel.ofBandwidth b).gamma * t ≤ 0 :=
      mul_nonpos_of_nonpos_of_nonneg (le_of_lt hγ) ht
    calc (ExponentialKernel.ofBandwidth b).EvaluateScalar t
        ≤ Real.exp 0 := Real.exp_le_exp.mpr hmul
      _ = 1 := Real.exp_zero

/-- Claim C8 amended witness: bandwidth −1 and distance 2. -/
theorem negative_bandwidth_is_ordinary_witness :
    (-1 : ℝ) < 0 ∧ (0 : ℝ) ≤ 2 ∧
    ((ExponentialKernel.ofBandwidth (-1)).Gamma = -1 / (2 * (-1 : ℝ) ^ 2) ∧
      (ExponentialKernel.ofBandwidth (-1)).Gamma < 0 ∧
      (ExponentialKernel.ofBandwidth (-1)).Gamma =
        (ExponentialKernel.ofBandwidth (-(-1))).Gamma ∧
      0 < (ExponentialKernel.ofBandwidth (-1)).EvaluateScalar 2 ∧
      (ExponentialKernel.ofBandwidth (-1)).EvaluateScalar 2 ≤ 1) :=
  ⟨by norm_num, by norm_num,
    negative_bandwidth_is_ordinary (-1) 2 (by norm_num) (by norm_num)⟩

/-- Claim C9: no member function mutates the instance: after any sequence of
`Evaluate`, `Bandwidth()`, or `Gamma()` calls, both fields still hold their
construction-time values, so running the same call before and after any such
sequence returns the same result. -/
theorem instance_immutable (k : ExponentialKernel) (ops : List KernelOp)
    (op : KernelOp) :
    runOps k ops = k ∧
    (runOps k ops).bandwidth = k.bandwidth ∧
    (runOps k ops).gamma = k.gamma ∧
    (KernelOp.run (runOps k ops) op).1 = (KernelOp.run k op).1 := by
  have h := runOps_eq k ops
  exact ⟨h, by rw [h], by rw [h], by rw [h]⟩

/-- Claim C10: for `b ≠ 0`, construction with bandwidth `−b` stores the same
gamma as construction with `b` (the constructor depends on the bandwidth only
through its square), hence both instances agree on every `Evaluate` input;
in particular a finite negative bandwidth yields a finite negative gamma. -/
theorem negated_bandwidth_same_kernel (b : ℝ) (hb : b ≠ 0) (a c : List ℝ)
    (t : ℝ) :
    (ExponentialKernel.ofBandwidth (-b)).Gamma =
      (ExponentialKernel.ofBandwidth b).Gamma ∧
    (ExponentialKernel.ofBandwidth (-b)).Evaluate a c =
      (ExponentialKernel.ofBandwidth b).Evaluate a c ∧
    (ExponentialKernel.ofBandwidth (-b)).EvaluateScalar t =
      (ExponentialKernel.ofBandwidth b).EvaluateScalar t ∧
    (ExponentialKernel.ofBandwidth b).Gamma < 0 := by
  have hγ : (ExponentialKernel.ofBandwidth (-b)).gamma =
      (ExponentialKernel.ofBandwidth b).gamma := by
    rw [gamma_ofBandwidth, gamma_ofBandwidth, neg_sq]
  refine ⟨hγ, ?_, ?_, gamma_neg_of_ne_zero hb⟩
  · unfold ExponentialKernel.Evaluate
    rw [hγ]
  · unfold ExponentialKernel.EvaluateScalar
    rw [hγ]

/-- Claim C10 witness: bandwidth 2 against −2, vectors `[0]`, `[1]`, scalar 3. -/
theorem negated_bandwidth_same_kernel_witness :
    (2 : ℝ) ≠ 0 ∧
    ((ExponentialKernel.ofBandwidth (-2)).Gamma =
        (ExponentialKernel.ofBandwidth 2).Gamma ∧
      (ExponentialKernel.ofBandwidth (-2)).Evaluate [0] [1] =
        (ExponentialKernel.ofBandwidth 2).Evaluate [0] [1] ∧
      (ExponentialKernel.ofBandwidth (-2)).EvaluateScalar 3 =
        (ExponentialKernel.ofBandwidth 2).EvaluateScalar 3 ∧
      (ExponentialKernel.ofBandwidth 2).Gamma < 0) :=
  ⟨by norm_num, negated_bandwidth_same_kernel 2 (by norm_num) [0] [1] 3⟩

end mlpack
